import Mathlib

/-!
Shallow embedding of the startup-trends-dashboard data pipeline.

Sources embedded (translated from the Python sources):
* `src/utils.py`            — funding-amount formatting.
* `src/github_fetcher.py`   — trending-repository fetch loop, projection,
  momentum scoring, and growth-metric computation.
* `src/producthunt_fetcher.py` — engagement-score computation.
* `src/hybrid_fetcher.py`   — dataset merge and manual enrichment.
* `src/categorizer.py`      — response parsing and label join.

Conventions: machine integers are `Int`, fractional scores are `Rat`
(Python floats on these inputs are exact decimals, and every claim is
about exact decimal values).  A pandas cell that may be absent because
its column only exists when some row supplied the key is an `Option`.
Code that can raise returns `Except String`.  Dates are abstracted to
the integer day / year values the date library would produce, passed in
explicitly (`now` parameters) because the Python reads the wall clock.
-/

/-! ### Formatter (`src/utils.py`) -/

/-- Round a rational to the nearest integer, ties to even: the rounding
Python's `format(x, ".1f")` applies to the (exact, for the inputs in the
claims) value `x * 10`. -/
def roundHalfEven (q : Rat) : Int :=
  let f : Int := q.floor
  let r : Rat := q - (f : Rat)
  if r < 1/2 then f
  else if 1/2 < r then f + 1
  else if f % 2 = 0 then f else f + 1

/-- Render a nonnegative rational with exactly one decimal digit, as
Python's `f"{x:.1f}"` does for nonnegative `x`. -/
def formatFixed1 (q : Rat) : String :=
  let n : Int := roundHalfEven (q * 10)
  toString (n / 10) ++ "." ++ toString (n % 10)

/-- Translation of `format_funding` (`src/utils.py`): amounts at or above
one billion are rendered in billions with one decimal, anything below in
millions with one decimal. -/
def format_funding (amount : Rat) : String :=
  if amount >= 1000000000 then
    "$" ++ formatFixed1 (amount / 1000000000) ++ "B"
  else
    "$" ++ formatFixed1 (amount / 1000000) ++ "M"

/-! ### GitHub fetcher (`src/github_fetcher.py`) -/

/-- One item of a GitHub search response, as consumed by
`get_trending_startups` (the fields the projection reads). -/
structure Repo where
  id : Int
  owner_login : String
  repo_name : String
  description : String
  html_url : String
  homepage : String
  stargazers_count : Int
  forks_count : Int
  watchers_count : Int
  open_issues_count : Int
  language : String
  topics : List String
  created_at : String
  /-- Year of `created_at` as the date library parses it (`none` for a
  null timestamp); date parsing itself is abstracted. -/
  created_year : Option Int
  updated_at : String
  pushed_at : String
deriving DecidableEq

/-- Row of the GitHub startups table built by `get_trending_startups`.
`star_velocity`, `fork_stars_quotient` and `days_old` only become columns
when `calculate_growth_metrics` runs, and `location` only when
`enrich_with_org_data` runs, hence `Option`. -/
structure GHRow where
  name : String
  repo_name : String
  description : String
  github_url : String
  homepage : String
  stars : Int
  forks : Int
  watchers : Int
  open_issues : Int
  language : String
  topics : String
  created_at : String
  created_year : Option Int
  updated_at : String
  last_push : String
  momentum_score : Rat
  star_velocity : Option Rat
  days_old : Option Int
  fork_stars_quotient : Option Rat
  location : Option String
deriving DecidableEq

/-- Projection of one repository item into the startups table
(`get_trending_startups`, the dict built per repo). -/
def repoToRow (r : Repo) : GHRow :=
  { name := r.owner_login
    repo_name := r.repo_name
    description := r.description
    github_url := r.html_url
    homepage := r.homepage
    stars := r.stargazers_count
    forks := r.forks_count
    watchers := r.watchers_count
    open_issues := r.open_issues_count
    language := r.language
    topics := String.intercalate ", " r.topics
    created_at := r.created_at
    created_year := r.created_year
    updated_at := r.updated_at
    last_push := r.pushed_at
    momentum_score := (r.stargazers_count : Rat) * 1 + (r.forks_count : Rat) * 2
      + (r.watchers_count : Rat) * (1/2)
    star_velocity := none
    days_old := none
    fork_stars_quotient := none
    location := none }

/-- Duplicate removal by repository id, first occurrence kept
(`get_trending_startups`, the `seen_ids` loop). -/
def dedupById : List Repo → List Int → List Repo
  | [], _ => []
  | r :: rs, seen =>
      if r.id ∈ seen then dedupById rs seen
      else r :: dedupById rs (r.id :: seen)

/-- Stable insertion into a list sorted descending by `key`. -/
def insertByDesc (key : α → Rat) (x : α) : List α → List α
  | [] => [x]
  | y :: ys => if key y < key x then x :: y :: ys else y :: insertByDesc key x ys

/-- Sort descending by `key` (models `sort_values(..., ascending=False)`;
every claim below is insensitive to the permutation a sort chooses). -/
def sortByDesc (key : α → Rat) (l : List α) : List α :=
  l.foldr (insertByDesc key) []

/-- Tail of `get_trending_startups` once the raw repository items are in
hand: dedup by id, truncate to `limit`, project, score, sort. -/
def github_process (repos : List Repo) (limit : Nat) : List GHRow :=
  sortByDesc (fun row => row.momentum_score)
    (((dedupById repos []).take limit).map repoToRow)

/-- Outcome of one per-topic search request, as the fetch loop observes
it: a parsed 200 response, a 403 rate limit, another non-200 status, or
an exception raised inside the `try` (timeout, malformed JSON, ...). -/
inductive HttpResult where
  | ok (items : List Repo)
  | rateLimited
  | otherStatus (code : Int)
  | exn
deriving DecidableEq

/-- The per-topic fetch loop of `get_trending_startups`: 200 responses
contribute their items, a 403 breaks out of the loop, any other status
or caught exception is skipped. -/
def collectRepos : List HttpResult → List Repo
  | [] => []
  | HttpResult.ok items :: rest => items ++ collectRepos rest
  | HttpResult.rateLimited :: _ => []
  | HttpResult.otherStatus _ :: rest => collectRepos rest
  | HttpResult.exn :: rest => collectRepos rest

/-- Translation of `get_trending_startups`: run the per-topic loop over
the given per-topic outcomes, then dedup, project, score and sort. -/
def get_trending_startups (responses : List HttpResult) (limit : Nat) : List GHRow :=
  github_process (collectRepos responses) limit

/-- Row of the growth-metrics computation: the columns
`calculate_growth_metrics` reads (`created_days` is `created_at` in epoch
days, so that `now - created_days` is the `.dt.days` difference). -/
structure GRowM where
  stars : Int
  forks : Int
  created_days : Int
deriving DecidableEq

/-- Output row of `calculate_growth_metrics`. -/
structure GRowOut where
  stars : Int
  forks : Int
  created_days : Int
  days_old : Int
  star_velocity : Rat
  fork_stars_quotient : Rat
deriving DecidableEq

/-- The `.replace(0, 1)` guard applied to every rate divisor. -/
def replaceZeroOne (d : Int) : Int :=
  if d = 0 then 1 else d

/-- Translation of `calculate_growth_metrics` (`src/github_fetcher.py`):
`days_old` is the day difference to `now`, star velocity divides by
`days_old` with 0 replaced by 1 (`.replace(0, 1)`), the forks/stars
quotient divides by `stars` with 0 replaced by 1. -/
def calculate_growth_metrics (now : Int) (df : List GRowM) : List GRowOut :=
  df.map fun r =>
    let days : Int := now - r.created_days
    { stars := r.stars
      forks := r.forks
      created_days := r.created_days
      days_old := days
      star_velocity := (r.stars : Rat) / (replaceZeroOne days : Rat)
      fork_stars_quotient := (r.forks : Rat) / (replaceZeroOne r.stars : Rat) }

/-! ### Product Hunt fetcher (`src/producthunt_fetcher.py`) -/

/-- Row of the engagement-score computation: the columns
`calculate_engagement_score` reads (`launch_days` is the launch date in
epoch days). -/
structure PRowM where
  upvotes : Int
  comments : Int
  launch_days : Int
deriving DecidableEq

/-- Output row of `calculate_engagement_score`. -/
structure PRowOut where
  upvotes : Int
  comments : Int
  launch_days : Int
  engagement_score : Rat
  days_since_launch : Int
  upvotes_per_day : Rat
deriving DecidableEq

/-- Translation of `calculate_engagement_score`
(`src/producthunt_fetcher.py`): engagement is `upvotes*1 + comments*2`,
and the daily upvote rate divides by the days since launch with 0
replaced by 1 (`.replace(0, 1)`). -/
def calculate_engagement_score (now : Int) (df : List PRowM) : List PRowOut :=
  df.map fun r =>
    let days : Int := now - r.launch_days
    { upvotes := r.upvotes
      comments := r.comments
      launch_days := r.launch_days
      engagement_score := (r.upvotes : Rat) * 1 + (r.comments : Rat) * 2
      days_since_launch := days
      upvotes_per_day := (r.upvotes : Rat) / (replaceZeroOne days : Rat) }

/-! ### Merge engine (`src/hybrid_fetcher.py`, `merge_datasets`) -/

/-- Python's `str.lower()` as the per-character lowercase map (faithful
for the ASCII names these tables carry). -/
def pyLower (s : String) : String :=
  ⟨s.data.map Char.toLower⟩

/-- Row of the Product Hunt table as `merge_datasets` reads it. -/
structure PHRow where
  name : String
  tagline : String
  website : String
  launch_date : String
  /-- Year of `launch_date` as the date library parses it (`none` for a
  null date); date parsing itself is abstracted. -/
  launch_year : Option Int
  upvotes : Int
  comments : Int
  topics : String
deriving DecidableEq

/-- Record of the merged startups table before the combined-momentum
column is added.  `ph_upvotes`, `ph_comments` and `launch_date` are keys
only Product Hunt processing writes, hence `Option` (`none` models the
key being absent from the row dict, a NaN cell once the column exists). -/
structure Startup where
  name : String
  description : String
  source : String
  github_url : String
  website : String
  github_stars : Int
  github_forks : Int
  star_velocity : Rat
  momentum_score : Rat
  language : String
  topics : String
  founded_year : Option Int
  funding_total : Rat
  location : String
  ph_upvotes : Option Int
  ph_comments : Option Int
  launch_date : Option String
deriving DecidableEq

/-- Projection of a GitHub row into the merged shape (`merge_datasets`,
the first loop). -/
def projectGH (row : GHRow) : Startup :=
  { name := row.name
    description := row.description
    source := "GitHub"
    github_url := row.github_url
    website := row.homepage
    github_stars := row.stars
    github_forks := row.forks
    star_velocity := row.star_velocity.getD 0
    momentum_score := row.momentum_score
    language := row.language
    topics := row.topics
    founded_year := row.created_year
    funding_total := 0
    location := row.location.getD ""
    ph_upvotes := none
    ph_comments := none
    launch_date := none }

/-- A fresh merged record built from a Product Hunt row that matched no
existing record (`merge_datasets`, the `else` branch). -/
def newFromPH (row : PHRow) : Startup :=
  { name := row.name
    description := row.tagline
    source := "Product Hunt"
    github_url := ""
    website := row.website
    github_stars := 0
    github_forks := 0
    star_velocity := 0
    momentum_score := 0
    language := ""
    topics := row.topics
    founded_year := row.launch_year
    funding_total := 0
    location := ""
    ph_upvotes := some row.upvotes
    ph_comments := some row.comments
    launch_date := some row.launch_date }

/-- Additive merge of a Product Hunt row into an existing record
(`merge_datasets`, the `if existing` branch): attach the Product Hunt
signals, fill website/description only when currently empty. -/
def mergeInto (s : Startup) (row : PHRow) : Startup :=
  { s with
    ph_upvotes := some row.upvotes
    ph_comments := some row.comments
    launch_date := some row.launch_date
    website := if s.website = "" then row.website else s.website
    description := if s.description = "" then row.tagline else s.description }

/-- Processing of one Product Hunt row against the accumulated list: the
first record with the same lowercased name is merged into in place; with
no match the row is appended at the end.  This is exactly the
`next(...)`-then-mutate-or-append logic of `merge_datasets`. -/
def phStep (row : PHRow) : List Startup → List Startup
  | [] => [newFromPH row]
  | s :: rest =>
      if pyLower s.name = pyLower row.name then mergeInto s row :: rest
      else s :: phStep row rest

/-- The record list `all_startups` after both loops of `merge_datasets`:
GitHub rows projected in order, then each Product Hunt row reconciled. -/
def buildStartups (gh : List GHRow) (ph : List PHRow) : List Startup :=
  ph.foldl (fun acc row => phStep row acc) (gh.map projectGH)

/-- Merged record with the combined-momentum column. -/
structure Merged extends Startup where
  combined_momentum : Rat
deriving DecidableEq

/-- Combined momentum of one record: `momentum_score + ph_upvotes*0.5 +
ph_comments*1.0`, NaN cells filled with 0 (`.fillna(0)`). -/
def addCombined (s : Startup) : Merged :=
  { s with
    combined_momentum := s.momentum_score + ((s.ph_upvotes.getD 0 : Int) : Rat) * (1/2)
      + ((s.ph_comments.getD 0 : Int) : Rat) * 1 }

/-- Translation of `merge_datasets` (`src/hybrid_fetcher.py`).  On a
non-empty table it evaluates `df.get("ph_upvotes", 0).fillna(0)` and
`df.get("ph_comments", 0).fillna(0)`: when the column is absent (no
record ever received the key) `df.get` returns the scalar default `0`,
and `.fillna` on that scalar raises `AttributeError`; the `Except.error`
branches model exactly those two raises, in evaluation order. -/
def merge_datasets (gh : List GHRow) (ph : List PHRow) : Except String (List Merged) :=
  let l := buildStartups gh ph
  if l.isEmpty then Except.ok []
  else if l.any (fun s => s.ph_upvotes.isSome) then
    if l.any (fun s => s.ph_comments.isSome) then
      Except.ok (sortByDesc (fun m => m.combined_momentum) (l.map addCombined))
    else Except.error "AttributeError: fillna called on the scalar default 0"
  else Except.error "AttributeError: fillna called on the scalar default 0"

/-- The merged table of `merge_datasets` when it returns one. -/
def mergeOut (gh : List GHRow) (ph : List PHRow) : List Merged :=
  ((merge_datasets gh ph).toOption).getD []

/-- Lowercased dedup key of a merged-table record. -/
def nameKey (s : Startup) : String := pyLower s.name

/-! ### Manual enrichment (`src/hybrid_fetcher.py`, `apply_manual_enrichment`) -/

/-- Columns of the manual-enrichment table, as documented by
`load_manual_enrichment`. -/
inductive ECol where
  | name
  | funding_total
  | last_funding_round
  | investors
  | founder
deriving DecidableEq

/-- One row of the manual-enrichment table. -/
structure ERow where
  name : String
  funding_total : Rat
  last_funding_round : String
  investors : String
  founder : String
deriving DecidableEq

/-- Overwrite of one enrichment column onto a merged record: the `name`
column is skipped (`col != "name"`), and of the documented enrichment
columns only `funding_total` is also a column of the merged table
(`col in df.columns`), so the others are skipped too. -/
def applyCol (row : ERow) (s : Merged) : ECol → Merged
  | ECol.name => s
  | ECol.funding_total => { s with funding_total := row.funding_total }
  | ECol.last_funding_round => s
  | ECol.investors => s
  | ECol.founder => s

/-- Body of the per-row loop of `apply_manual_enrichment`: the row's
name is matched case-insensitively against the table (`mask`); when some
record matches (`mask.any()`) every enrichment column the merged table
also has is overwritten on every matching record. -/
def enrichStep (cols : List ECol) (acc : List Merged) (row : ERow) : List Merged :=
  if acc.any (fun s => pyLower s.name = pyLower row.name) then
    acc.map (fun s =>
      if pyLower s.name = pyLower row.name then cols.foldl (applyCol row) s else s)
  else acc

/-- Translation of `apply_manual_enrichment` (`src/hybrid_fetcher.py`):
an empty enrichment table returns the input unchanged; otherwise the
per-row loop runs over every enrichment row. -/
def apply_manual_enrichment (df : List Merged) (cols : List ECol) (rows : List ERow) :
    List Merged :=
  if rows.isEmpty then df
  else rows.foldl (enrichStep cols) df

/-! ### Categorizer (`src/categorizer.py`) -/

/-- The two columns of the input table the categorizer reads. -/
structure SRecord where
  name : String
  description : String
deriving DecidableEq

/-- One well-formed object of the parsed service response: a dict with
an `id` and optional `category` / `subcategory` / `themes` keys. -/
structure CatItem where
  id : Nat
  category : Option String
  subcategory : Option String
  themes : Option (List String)
deriving DecidableEq

/-- A record of the categorized table: the input columns plus the three
label columns, which are initialized to `None` and only written for ids
the response mentions. -/
structure CatRecord where
  name : String
  description : String
  category : Option String
  subcategory : Option String
  themes : Option String
deriving DecidableEq

/-- Index of the first occurrence of `c` (Python `str.find`, as an
`Option` instead of `-1`). -/
def strFind (l : List Char) (c : Char) : Option Nat :=
  l.findIdx? (fun d => d = c)

/-- Index of the last occurrence of `c` (Python `str.rfind`, as an
`Option` instead of `-1`). -/
def strRevFind (l : List Char) (c : Char) : Option Nat :=
  match strFind l.reverse c with
  | some i => some (l.length - 1 - i)
  | none => none

/-- The opening bracket character the parser scans for. -/
def lbrack : Char := '['

/-- The closing bracket character the parser scans for. -/
def rbrack : Char := ']'

/-- Translation of `_parse_categorization_response`
(`src/categorizer.py`).  `loads` stands for `json.loads` restricted to
the well-formed outcomes the join consumes: `some items` for a parsed
array of objects, `none` for a `JSONDecodeError` (which the `except`
turns into `[]`).  The slice bounds reproduce `find("[")` / `rfind("]")
+ 1` including their `-1` sentinel arithmetic. -/
def parse_categorization_response (loads : List Char → Option (List CatItem))
    (resp : List Char) : List CatItem :=
  let si : Int := match strFind resp lbrack with
    | some i => (i : Int)
    | none => -1
  let ei : Int := (match strRevFind resp rbrack with
    | some i => (i : Int)
    | none => -1) + 1
  if si ≠ -1 ∧ si < ei then
    (loads ((resp.drop si.toNat).take (ei - si).toNat)).getD []
  else
    (loads resp).getD []

/-- Label columns of a fresh copy of the input table, initialized to
`None` (`startups_df["category"] = None`, etc.). -/
def initLabels (df : List SRecord) : List CatRecord :=
  df.map fun s =>
    { name := s.name
      description := s.description
      category := none
      subcategory := none
      themes := none }

/-- Application of one response item to the table: ids below the table
length write the three labels at that position (`.at[idx, ...]`), with
`"Other"`, `""` and `[]` as per-key fallbacks; other ids are skipped. -/
def applyItem (acc : List CatRecord) (it : CatItem) : List CatRecord :=
  if h : it.id < acc.length then
    let r := acc.get ⟨it.id, h⟩
    acc.set it.id
      { r with
        category := some (it.category.getD "Other")
        subcategory := some (it.subcategory.getD "")
        themes := some (String.intercalate ", " (it.themes.getD [])) }
  else acc

/-- The label join of `categorize_startups`: initialize the label
columns on a copy, then apply every parsed item by positional id. -/
def joinCategories (df : List SRecord) (cats : List CatItem) : List CatRecord :=
  cats.foldl applyItem (initLabels df)

/-- Translation of the pure tail of `categorize_startups`: parse the
service response text, then join the labels back by positional id. -/
def categorize_startups (loads : List Char → Option (List CatItem))
    (resp : List Char) (df : List SRecord) : List CatRecord :=
  joinCategories df (parse_categorization_response loads resp)

/-- Heap-passing form of `categorize_startups`, to state its frame
property over pandas reference semantics.  Tables live in a heap of
slots; the caller passes the slot index of its dataframe.  The function
reads that table, allocates a fresh slot for the copy
(`startups_df = startups_df.copy()`), performs every column
initialization and `.at` write on the fresh slot, and returns the new
heap together with the copy's index. -/
def categorize_startups_heap (loads : List Char → Option (List CatItem))
    (resp : List Char) (heap : List (List CatRecord)) (src : Nat) :
    List (List CatRecord) × Nat :=
  let input := heap.getD src []
  let j := heap.length
  let labeled := joinCategories
    (input.map fun r => { name := r.name, description := r.description })
    (parse_categorization_response loads resp)
  ((heap ++ [input]).set j labeled, j)

/-! ### Shared lemmas -/

theorem insertByDesc_perm (key : α → Rat) (x : α) (l : List α) :
    (insertByDesc key x l).Perm (x :: l) := by
  induction l with
  | nil => exact List.Perm.refl _
  | cons y ys ih =>
    by_cases h : key y < key x
    · rw [insertByDesc, if_pos h]
    · rw [insertByDesc, if_neg h]
      exact (ih.cons y).trans (List.Perm.swap x y ys)

theorem sortByDesc_perm (key : α → Rat) (l : List α) :
    (sortByDesc key l).Perm l := by
  induction l with
  | nil => exact List.Perm.refl _
  | cons x xs ih =>
    exact (insertByDesc_perm key x (sortByDesc key xs)).trans (ih.cons x)

theorem collectRepos_append_rateLimited (pre post : List HttpResult) :
    collectRepos (pre ++ HttpResult.rateLimited :: post) = collectRepos pre := by
  induction pre with
  | nil => rfl
  | cons h t ih => cases h <;> simp [collectRepos, ih]

theorem mergeInto_name (s : Startup) (row : PHRow) : (mergeInto s row).name = s.name := rfl

theorem addCombined_name (s : Startup) : (addCombined s).name = s.name := rfl

theorem phStep_map_nameKey (row : PHRow) (acc : List Startup) :
    (phStep row acc).map nameKey =
      if pyLower row.name ∈ acc.map nameKey then acc.map nameKey
      else acc.map nameKey ++ [pyLower row.name] := by
  induction acc with
  | nil => simp [phStep, newFromPH, nameKey]
  | cons s rest ih =>
    by_cases h : pyLower s.name = pyLower row.name
    · rw [phStep, if_pos h, List.map_cons, List.map_cons]
      rw [if_pos (show pyLower row.name ∈ nameKey s :: List.map nameKey rest from
        List.mem_cons.mpr (Or.inl h.symm))]
      rfl
    · rw [phStep, if_neg h, List.map_cons, List.map_cons, ih]
      have hne : pyLower row.name ≠ nameKey s := fun e => h e.symm
      by_cases hm : pyLower row.name ∈ rest.map nameKey
      · rw [if_pos hm, if_pos (List.mem_cons_of_mem _ hm)]
      · rw [if_neg hm, if_neg (by
          intro hc
          rcases List.mem_cons.mp hc with e | e
          · exact hne e
          · exact hm e)]
        rfl

theorem buildStartups_keys_nodup (gh : List GHRow) (ph : List PHRow)
    (h : (gh.map (fun x => pyLower x.name)).Nodup) :
    ((buildStartups gh ph).map nameKey).Nodup := by
  have base : (gh.map projectGH).map nameKey = gh.map (fun x => pyLower x.name) := by
    rw [List.map_map]; rfl
  suffices H : ∀ (ps : List PHRow) (acc : List Startup), (acc.map nameKey).Nodup →
      ((ps.foldl (fun a r => phStep r a) acc).map nameKey).Nodup by
    exact H ph (gh.map projectGH) (base ▸ h)
  intro ps
  induction ps with
  | nil => intro acc hh; exact hh
  | cons r rs ih =>
    intro acc hh
    refine ih (phStep r acc) ?_
    rw [phStep_map_nameKey]
    by_cases hm : pyLower r.name ∈ acc.map nameKey
    · rw [if_pos hm]; exact hh
    · rw [if_neg hm]
      rw [List.nodup_append]
      exact ⟨hh, List.nodup_singleton _, by
        intro a ha hb
        rw [List.mem_singleton] at hb
        exact hm (hb ▸ ha)⟩

theorem filter_phStep_of_ne (row : PHRow) (k : String) (h : pyLower row.name ≠ k)
    (acc : List Startup) :
    (phStep row acc).filter (fun s => nameKey s = k)
      = acc.filter (fun s => nameKey s = k) := by
  induction acc with
  | nil =>
    simp only [phStep, List.filter_nil, List.filter_cons, List.filter_nil]
    rw [if_neg (by simpa [newFromPH, nameKey] using h)]
  | cons s rest ih =>
    by_cases hs : pyLower s.name = pyLower row.name
    · rw [phStep, if_pos hs]
      have hmk : ¬ nameKey (mergeInto s row) = k := by
        simpa [nameKey, mergeInto] using fun e => h (hs ▸ e)
      have hsk : ¬ nameKey s = k := fun e => h (hs ▸ e)
      rw [List.filter_cons, List.filter_cons, if_neg (by simpa using hmk),
        if_neg (by simpa using hsk)]
    · rw [phStep, if_neg hs]
      rw [List.filter_cons, List.filter_cons, ih]

theorem filter_phStep_of_match (row : PHRow) (k : String) (hk : pyLower row.name = k)
    (acc : List Startup) (s0 : Startup)
    (h : acc.filter (fun s => nameKey s = k) = [s0]) :
    (phStep row acc).filter (fun s => nameKey s = k) = [mergeInto s0 row] := by
  induction acc with
  | nil => simp at h
  | cons s rest ih =>
    by_cases hs : pyLower s.name = pyLower row.name
    · have hsk : nameKey s = k := by rw [nameKey, hs, hk]
      rw [List.filter_cons, if_pos (by simpa using hsk)] at h
      have hs0 : s = s0 := by
        have := congrArg (fun l => l.head? ) h
        simpa using this
      have hrest : rest.filter (fun s => nameKey s = k) = [] := by
        have := congrArg (fun l => l.tail) h
        simpa using this
      rw [phStep, if_pos hs, List.filter_cons,
        if_pos (by simpa [nameKey, mergeInto] using hsk), hrest, hs0]
    · have hsk : ¬ nameKey s = k := fun e => hs (by rw [nameKey] at e; rw [e, ← hk])
      rw [List.filter_cons, if_neg (by simpa using hsk)] at h
      rw [phStep, if_neg hs, List.filter_cons, if_neg (by simpa using hsk)]
      exact ih h

theorem filter_eq_singleton_of_nodup_keys {α : Type} (key : α → String) (l : List α) (g : α)
    (hg : g ∈ l) (h : (l.map key).Nodup) :
    l.filter (fun x => key x = key g) = [g] := by
  induction l with
  | nil => cases hg
  | cons a t ih =>
    rw [List.map_cons, List.nodup_cons] at h
    obtain ⟨hna, hnt⟩ := h
    rcases List.mem_cons.mp hg with rfl | hgt
    · rw [List.filter_cons, if_pos (by simp)]
      have : t.filter (fun x => key x = key g) = [] := by
        rw [List.filter_eq_nil_iff]
        intro x hx
        simp only [decide_eq_true_eq]
        intro e
        exact hna (e ▸ List.mem_map_of_mem key hx)
      rw [this]
    · have hne : ¬ key a = key g :=
        fun e => hna (e ▸ List.mem_map_of_mem key hgt)
      rw [List.filter_cons, if_neg (by simpa using hne)]
      exact ih hgt hnt

theorem filter_foldl_of_ne (k : String) (ps : List PHRow)
    (hps : ∀ x ∈ ps, pyLower x.name ≠ k) (acc : List Startup) :
    ((ps.foldl (fun a r => phStep r a) acc).filter (fun s => nameKey s = k))
      = acc.filter (fun s => nameKey s = k) := by
  induction ps generalizing acc with
  | nil => rfl
  | cons p ps ih =>
    rw [List.foldl_cons, ih (fun x hx => hps x (List.mem_cons_of_mem _ hx)),
      filter_phStep_of_ne p k (hps p (List.mem_cons_self _ _)) acc]

theorem buildStartups_filter_of_match (gh : List GHRow) (p1 p2 : List PHRow)
    (g : GHRow) (r : PHRow)
    (hg : g ∈ gh) (hk : pyLower r.name = pyLower g.name)
    (hgh : (gh.map (fun x => pyLower x.name)).Nodup)
    (h1 : ∀ x ∈ p1, pyLower x.name ≠ pyLower g.name)
    (h2 : ∀ x ∈ p2, pyLower x.name ≠ pyLower g.name) :
    (buildStartups gh (p1 ++ r :: p2)).filter (fun s => nameKey s = pyLower g.name)
      = [mergeInto (projectGH g) r] := by
  have hinit : (gh.map projectGH).filter (fun s => nameKey s = pyLower g.name)
      = [projectGH g] := by
    rw [List.filter_map]
    have hcomp : ((fun s => decide (nameKey s = pyLower g.name)) ∘ projectGH)
        = fun x : GHRow => decide (pyLower x.name = pyLower g.name) := rfl
    rw [hcomp]
    have := filter_eq_singleton_of_nodup_keys (fun x : GHRow => pyLower x.name) gh g hg hgh
    rw [this, List.map_singleton]
  rw [buildStartups, List.foldl_append, List.foldl_cons]
  rw [filter_foldl_of_ne _ p2 h2]
  exact filter_phStep_of_match r _ hk _ (projectGH g)
    (by rw [filter_foldl_of_ne _ p1 h1, hinit])

theorem merge_datasets_ok_of_some (gh : List GHRow) (ph : List PHRow) (x : Startup)
    (hx : x ∈ buildStartups gh ph)
    (hu : x.ph_upvotes.isSome) (hc : x.ph_comments.isSome) :
    merge_datasets gh ph = Except.ok (sortByDesc (fun m => m.combined_momentum)
      ((buildStartups gh ph).map addCombined)) := by
  have hne : (buildStartups gh ph).isEmpty = false := by
    cases hb : buildStartups gh ph with
    | nil => rw [hb] at hx; cases hx
    | cons a t => rfl
  have h1 : (buildStartups gh ph).any (fun s => s.ph_upvotes.isSome) = true :=
    List.any_eq_true.mpr ⟨x, hx, hu⟩
  have h2 : (buildStartups gh ph).any (fun s => s.ph_comments.isSome) = true :=
    List.any_eq_true.mpr ⟨x, hx, hc⟩
  rw [merge_datasets]
  simp only [hne, h1, h2, Bool.false_eq_true, if_false, if_true]

/-! ### Concrete tables used by witnesses and counterexamples -/

/-- A GitHub search item for the end-to-end scenario: owner `Acme`, 120
stars, 10 forks, 5 watchers. -/
def repoAcme : Repo :=
  { id := 1, owner_login := "Acme", repo_name := "acme-repo", description := "desc",
    html_url := "https://github.com/acme", homepage := "", stargazers_count := 120,
    forks_count := 10, watchers_count := 5, open_issues_count := 0, language := "Python",
    topics := ["startup"], created_at := "2024-01-01", created_year := some 2024,
    updated_at := "", pushed_at := "" }

/-- A Product Hunt row named `acme` with 50 upvotes and 4 comments. -/
def phAcme : PHRow :=
  { name := "acme", tagline := "tag", website := "https://acme.io",
    launch_date := "2024-02-01", launch_year := some 2024, upvotes := 50, comments := 4,
    topics := "ai" }

/-- A GitHub startups-table row named `Acme` (one star, no forks). -/
def ghDupA : GHRow :=
  { name := "Acme", repo_name := "alpha", description := "first repo",
    github_url := "https://github.com/acme/alpha", homepage := "", stars := 1, forks := 0,
    watchers := 0, open_issues := 0, language := "Python", topics := "startup",
    created_at := "2024-01-01", created_year := some 2024, updated_at := "",
    last_push := "", momentum_score := 1, star_velocity := none, days_old := none,
    fork_stars_quotient := none, location := none }

/-- A second GitHub startups-table row also named `Acme` (a different
repository of the same owner, so id-dedup keeps both). -/
def ghDupB : GHRow :=
  { name := "Acme", repo_name := "beta", description := "second repo",
    github_url := "https://github.com/acme/beta", homepage := "", stars := 2, forks := 0,
    watchers := 0, open_issues := 0, language := "Go", topics := "saas",
    created_at := "2024-01-02", created_year := some 2024, updated_at := "",
    last_push := "", momentum_score := 2, star_velocity := none, days_old := none,
    fork_stars_quotient := none, location := none }

/-! ### Claims -/

/-- Claim C9.  GitHub fetch error recovery: the fetch never raises for a
timeout, non-2xx status, or malformed response — the loop recovers each
locally (the embedding of the loop is total, and skipping is proved
below) — and a 403 rate limit halts further topic queries while the
items already collected from earlier topics are still deduplicated,
projected, and returned: the fetch over any response sequence with a
rate limit equals the fetch over the prefix before the rate limit. -/
theorem github_fetch_error_recovery (pre post : List HttpResult) (c : Int) (lim : Nat) :
    get_trending_startups (pre ++ HttpResult.rateLimited :: post) lim
      = get_trending_startups pre lim
    ∧ get_trending_startups (HttpResult.exn :: post) lim
      = get_trending_startups post lim
    ∧ get_trending_startups (HttpResult.otherStatus c :: post) lim
      = get_trending_startups post lim := by
  refine ⟨?_, rfl, rfl⟩
  rw [get_trending_startups, get_trending_startups, collectRepos_append_rateLimited]

/-- Claim C7.  Formatter correctness of `format_funding` (the spec's
`format_amount`): total and deterministic by construction for all
rational inputs; on `[0, 1e9)` the output ends in `"M"`, at and above
`1e9` it ends in `"B"`; `format_funding 1000000000 = "$1.0B"` and
`format_funding 999000000 = "$999.0M"`. -/
theorem format_funding_units (q : Rat) (h0 : 0 ≤ q) :
    (q < 1000000000 → ∃ p, format_funding q = p ++ "M")
    ∧ (1000000000 ≤ q → ∃ p, format_funding q = p ++ "B")
    ∧ format_funding 1000000000 = "$1.0B"
    ∧ format_funding 999000000 = "$999.0M" := by
  refine ⟨?_, ?_, ?_, ?_⟩
  · intro h
    exact ⟨"$" ++ formatFixed1 (q / 1000000), by
      rw [format_funding, if_neg (not_le.mpr h)]⟩
  · intro h
    exact ⟨"$" ++ formatFixed1 (q / 1000000000), by
      rw [format_funding, if_pos h]⟩
  · norm_num [format_funding, formatFixed1, roundHalfEven, Rat.floor]
    decide
  · norm_num [format_funding, formatFixed1, roundHalfEven, Rat.floor]
    decide

/-- Witness for C7 at the concrete amount 0. -/
theorem format_funding_units_witness :
    (0 : Rat) ≤ 0
    ∧ (((0 : Rat) < 1000000000 → ∃ p, format_funding 0 = p ++ "M")
      ∧ ((1000000000 : Rat) ≤ 0 → ∃ p, format_funding 0 = p ++ "B")
      ∧ format_funding 1000000000 = "$1.0B"
      ∧ format_funding 999000000 = "$999.0M") :=
  ⟨le_refl 0, format_funding_units 0 (le_refl 0)⟩

/-- Claim C8.  Division-by-zero guard in the per-record rate
computations: star velocity, the forks/stars quotient and the daily
upvote rate each use `.replace(0, 1)` on the divisor, so a record with
age 0 (or 0 stars) gets the raw count as its rate, and whenever the
divisor is nonzero the rate is the exact quotient (stated
multiplicatively, so no division-by-zero convention is involved). -/
theorem rate_division_guard (now : Int) (gdf : List GRowM) (pdf : List PRowM) :
    (∀ o ∈ calculate_growth_metrics now gdf,
      (o.days_old = 0 → o.star_velocity = (o.stars : Rat))
      ∧ (o.days_old ≠ 0 → o.star_velocity * (o.days_old : Rat) = (o.stars : Rat))
      ∧ (o.stars = 0 → o.fork_stars_quotient = (o.forks : Rat))
      ∧ (o.stars ≠ 0 → o.fork_stars_quotient * (o.stars : Rat) = (o.forks : Rat)))
    ∧ (∀ o ∈ calculate_engagement_score now pdf,
      (o.days_since_launch = 0 → o.upvotes_per_day = (o.upvotes : Rat))
      ∧ (o.days_since_launch ≠ 0 →
          o.upvotes_per_day * (o.days_since_launch : Rat) = (o.upvotes : Rat))) := by
  constructor
  · intro o ho
    rw [calculate_growth_metrics, List.mem_map] at ho
    obtain ⟨r, hr, rfl⟩ := ho
    refine ⟨?_, ?_, ?_, ?_⟩
    · intro h
      simp only at h
      simp [replaceZeroOne, h]
    · intro h
      simp only at h ⊢
      rw [replaceZeroOne, if_neg h, div_mul_cancel₀]
      exact_mod_cast h
    · intro h
      simp only at h
      simp [replaceZeroOne, h]
    · intro h
      simp only at h ⊢
      rw [replaceZeroOne, if_neg h, div_mul_cancel₀]
      exact_mod_cast h
  · intro o ho
    rw [calculate_engagement_score, List.mem_map] at ho
    obtain ⟨r, hr, rfl⟩ := ho
    refine ⟨?_, ?_⟩
    · intro h
      simp only at h
      simp [replaceZeroOne, h]
    · intro h
      simp only at h ⊢
      rw [replaceZeroOne, if_neg h, div_mul_cancel₀]
      exact_mod_cast h

/-- Input row of the C8 witness: created 5 epoch-days in, observed at
`now = 5`, so its age is 0. -/
def gIn0 : GRowM := { stars := 3, forks := 4, created_days := 5 }

/-- The output row `calculate_growth_metrics` produces for `gIn0`. -/
def gOut0 : GRowOut :=
  match calculate_growth_metrics 5 [gIn0] with
  | o :: _ => o
  | [] => { stars := 0, forks := 0, created_days := 0, days_old := 0,
            star_velocity := 0, fork_stars_quotient := 0 }

/-- Witness for C8: an age-0 record whose star velocity is its raw star
count. -/
theorem rate_division_guard_witness :
    gOut0 ∈ calculate_growth_metrics 5 [gIn0] ∧ gOut0.days_old = 0
    ∧ gOut0.star_velocity = (gOut0.stars : Rat) := by
  have ho : gOut0 ∈ calculate_growth_metrics 5 [gIn0] :=
    List.mem_singleton_self _
  exact ⟨ho, by decide, ((rate_division_guard 5 [gIn0] []).1 gOut0 ho).1 (by decide)⟩

/-- Claim C1 (code bug evaluation).  Merging a non-empty GitHub table
with an empty Product Hunt table does not return the projected table:
`merge_datasets` evaluates `df.get("ph_upvotes", 0).fillna(0)`, the
`ph_upvotes` column does not exist because no row ever received the key,
so `df.get` returns the scalar `0` and `.fillna` on it raises
`AttributeError`. -/
theorem merge_github_only_raises :
    merge_datasets [ghDupA] []
      = Except.error "AttributeError: fillna called on the scalar default 0" := by
  rfl

/-- Claim C4.  End-to-end scenario: the GitHub item `Acme` (120 stars,
10 forks, 5 watchers) run through the GitHub projection with momentum
computation, merged with the Product Hunt row `acme` (50 upvotes, 4
comments), yields exactly one record, named `Acme`, with
`momentum_score = 142.5` and `combined_momentum = 171.5`. -/
theorem end_to_end_acme :
    (mergeOut (github_process [repoAcme] 40) [phAcme]).map
      (fun m => (m.name, m.momentum_score, m.combined_momentum))
    = [("Acme", (142.5 : Rat), (171.5 : Rat))] := by
  have e1 : pyLower "Acme" = "acme" := by decide
  have e2 : pyLower "acme" = "acme" := by decide
  norm_num [mergeOut, merge_datasets, github_process, dedupById, sortByDesc, insertByDesc,
    repoToRow, buildStartups, phStep, mergeInto, projectGH, addCombined, repoAcme, phAcme,
    e1, e2, Except.toOption]

/-- Claim C5 (amended).  Post-merge name uniqueness: provided the GitHub
input table itself has case-insensitively unique names, no two records
of the merged table share a name up to letter case.  (The unamended
claim, for every pair of input tables, is refuted by
`merged_names_dup_cex`: the merge never deduplicates GitHub-origin
records against each other, and the GitHub fetcher dedups by repository
id, not by name.) -/
theorem merged_names_unique (gh : List GHRow) (ph : List PHRow)
    (hgh : (gh.map (fun x => pyLower x.name)).Nodup) :
    ((mergeOut gh ph).map (fun m => pyLower m.name)).Nodup := by
  have hb := buildStartups_keys_nodup gh ph hgh
  rw [mergeOut, merge_datasets]
  by_cases h0 : (buildStartups gh ph).isEmpty = true
  · rw [if_pos h0]
    simp [Except.toOption]
  · rw [if_neg h0]
    by_cases h1 : (buildStartups gh ph).any (fun s => s.ph_upvotes.isSome) = true
    · rw [if_pos h1]
      by_cases h2 : (buildStartups gh ph).any (fun s => s.ph_comments.isSome) = true
      · rw [if_pos h2]
        simp only [Except.toOption, Option.getD_some]
        have hperm := (sortByDesc_perm (fun m : Merged => m.combined_momentum)
          ((buildStartups gh ph).map addCombined)).map (fun m : Merged => pyLower m.name)
        rw [hperm.nodup_iff, List.map_map]
        exact hb
      · rw [if_neg h2]
        simp [Except.toOption]
    · rw [if_neg h1]
      simp [Except.toOption]

/-- Witness for C5 at a one-row GitHub table and one Product Hunt row. -/
theorem merged_names_unique_witness :
    (([ghDupA] : List GHRow).map (fun x => pyLower x.name)).Nodup
    ∧ ((mergeOut [ghDupA] [phAcme]).map (fun m => pyLower m.name)).Nodup :=
  ⟨by decide, merged_names_unique [ghDupA] [phAcme] (by decide)⟩

/-- Counterexample for C5 as stated: two GitHub rows named `Acme` (two
repositories of one owner survive the id-dedup) flow through the merge
unreconciled, so the merged table holds the name twice. -/
theorem merged_names_dup_cex :
    ¬ ((mergeOut [ghDupA, ghDupB] [phAcme]).map (fun m => pyLower m.name)).Nodup := by
  have e1 : pyLower "Acme" = "acme" := by decide
  have e2 : pyLower "acme" = "acme" := by decide
  have hmap : (mergeOut [ghDupA, ghDupB] [phAcme]).map (fun m => pyLower m.name)
      = ["acme", "acme"] := by
    norm_num [mergeOut, merge_datasets, buildStartups, phStep, mergeInto, projectGH,
      addCombined, sortByDesc, insertByDesc, ghDupA, ghDupB, phAcme, e1, e2,
      Except.toOption]
  rw [hmap]
  decide

/-- Claim C3 (amended).  Dedup on cross-source name match: provided each
input table is free of internal case-insensitive name duplicates, a
Product Hunt row whose name matches a GitHub row up to case yields
exactly one merged record for that name, carrying the GitHub stars and
the Product Hunt upvotes, with website and description taken from
Product Hunt only where the GitHub values are empty.  (The unamended
claim, for every pair of input tables, is refuted by
`merged_dedup_cex`.) -/
theorem merged_dedup_on_match (gh : List GHRow) (ph : List PHRow) (g : GHRow) (r : PHRow)
    (hg : g ∈ gh) (hr : r ∈ ph) (hk : pyLower r.name = pyLower g.name)
    (hgh : (gh.map (fun x => pyLower x.name)).Nodup)
    (hph : (ph.map (fun x => pyLower x.name)).Nodup) :
    (merge_datasets gh ph).isOk = true
    ∧ ((mergeOut gh ph).filter (fun s => pyLower s.name = pyLower g.name)).length = 1
    ∧ ∀ s ∈ mergeOut gh ph, pyLower s.name = pyLower g.name →
        s.github_stars = g.stars ∧ s.ph_upvotes = some r.upvotes
        ∧ s.website = (if g.homepage = "" then r.website else g.homepage)
        ∧ s.description = (if g.description = "" then r.tagline else g.description) := by
  obtain ⟨p1, p2, rfl⟩ := List.append_of_mem hr
  have hmap := hph
  rw [List.map_append, List.map_cons] at hmap
  obtain ⟨h1n, h2n, hdisj⟩ := List.nodup_append.mp hmap
  have h1 : ∀ x ∈ p1, pyLower x.name ≠ pyLower g.name := by
    intro x hx e
    exact hdisj ((hk ▸ e : pyLower x.name = pyLower r.name) ▸ List.mem_map_of_mem _ hx)
      (List.mem_cons_self _ _)
  have h2 : ∀ x ∈ p2, pyLower x.name ≠ pyLower g.name := by
    intro x hx e
    rw [List.nodup_cons] at h2n
    exact h2n.1 ((hk ▸ e : pyLower x.name = pyLower r.name) ▸ List.mem_map_of_mem _ hx)
  have hfil := buildStartups_filter_of_match gh p1 p2 g r hg hk hgh h1 h2
  have hxmem : mergeInto (projectGH g) r ∈ buildStartups gh (p1 ++ r :: p2) :=
    List.mem_of_mem_filter (hfil ▸ List.mem_singleton_self (mergeInto (projectGH g) r))
  have hok := merge_datasets_ok_of_some gh (p1 ++ r :: p2) (mergeInto (projectGH g) r)
    hxmem (by simp [mergeInto]) (by simp [mergeInto])
  have hout : mergeOut gh (p1 ++ r :: p2)
      = sortByDesc (fun m => m.combined_momentum)
          ((buildStartups gh (p1 ++ r :: p2)).map addCombined) := by
    rw [mergeOut, hok]; rfl
  have hfm : ((buildStartups gh (p1 ++ r :: p2)).map addCombined).filter
      (fun s => pyLower s.name = pyLower g.name)
      = [addCombined (mergeInto (projectGH g) r)] := by
    rw [List.filter_map]
    have hcomp : ((fun s : Merged => decide (pyLower s.name = pyLower g.name)) ∘ addCombined)
        = (fun s : Startup => decide (nameKey s = pyLower g.name)) := rfl
    rw [hcomp, hfil, List.map_singleton]
  have hperm := (sortByDesc_perm (fun m : Merged => m.combined_momentum)
    ((buildStartups gh (p1 ++ r :: p2)).map addCombined)).filter
    (fun s : Merged => pyLower s.name = pyLower g.name)
  rw [hfm] at hperm
  have hfinal : (mergeOut gh (p1 ++ r :: p2)).filter
      (fun s => pyLower s.name = pyLower g.name)
      = [addCombined (mergeInto (projectGH g) r)] := by
    rw [hout]
    exact List.perm_singleton.mp hperm
  refine ⟨by rw [hok]; rfl, by rw [hfinal]; rfl, ?_⟩
  intro s hs hname
  have hsf : s ∈ (mergeOut gh (p1 ++ r :: p2)).filter
      (fun s => pyLower s.name = pyLower g.name) :=
    List.mem_filter.mpr ⟨hs, by simpa using hname⟩
  rw [hfinal, List.mem_singleton] at hsf
  subst hsf
  refine ⟨rfl, rfl, ?_, ?_⟩ <;> simp [addCombined, mergeInto, projectGH]

/-- Witness for C3 at a one-row GitHub table and the matching Product
Hunt row. -/
theorem merged_dedup_on_match_witness :
    ghDupA ∈ [ghDupA] ∧ phAcme ∈ [phAcme]
    ∧ pyLower phAcme.name = pyLower ghDupA.name
    ∧ ((merge_datasets [ghDupA] [phAcme]).isOk = true
      ∧ ((mergeOut [ghDupA] [phAcme]).filter
          (fun s => pyLower s.name = pyLower ghDupA.name)).length = 1
      ∧ ∀ s ∈ mergeOut [ghDupA] [phAcme], pyLower s.name = pyLower ghDupA.name →
          s.github_stars = ghDupA.stars ∧ s.ph_upvotes = some phAcme.upvotes
          ∧ s.website = (if ghDupA.homepage = "" then phAcme.website else ghDupA.homepage)
          ∧ s.description
            = (if ghDupA.description = "" then phAcme.tagline else ghDupA.description)) :=
  ⟨List.mem_singleton_self _, List.mem_singleton_self _, by decide,
    merged_dedup_on_match [ghDupA] [phAcme] ghDupA phAcme (List.mem_singleton_self _)
      (List.mem_singleton_self _) (by decide) (by decide) (by decide)⟩

/-- Counterexample for C3 as stated: with two GitHub rows named `Acme`
in the input (two repositories of one owner), the Product Hunt row
`acme` matches an already-projected GitHub-origin record, yet the merged
table holds two records for that name, not exactly one. -/
theorem merged_dedup_cex :
    pyLower phAcme.name = pyLower ghDupA.name
    ∧ ghDupA ∈ [ghDupA, ghDupB]
    ∧ ((mergeOut [ghDupA, ghDupB] [phAcme]).filter
        (fun s => pyLower s.name = pyLower ghDupA.name)).length = 2 := by
  refine ⟨by decide, List.mem_cons_self _ _, ?_⟩
  have e1 : pyLower "Acme" = "acme" := by decide
  have e2 : pyLower "acme" = "acme" := by decide
  norm_num [mergeOut, merge_datasets, buildStartups, phStep, mergeInto, projectGH,
    addCombined, sortByDesc, insertByDesc, ghDupA, ghDupB, phAcme, e1, e2,
    Except.toOption, List.filter_cons]

theorem foldl_applyCol_name (row : ERow) (cols : List ECol) (s : Merged) :
    (cols.foldl (applyCol row) s).name = s.name := by
  induction cols generalizing s with
  | nil => rfl
  | cons c cs ih =>
    rw [List.foldl_cons, ih]
    cases c <;> rfl

theorem foldl_applyCol_funding_of_not_mem (row : ERow) (cols : List ECol) (s : Merged)
    (h : ECol.funding_total ∉ cols) :
    (cols.foldl (applyCol row) s).funding_total = s.funding_total := by
  induction cols generalizing s with
  | nil => rfl
  | cons c cs ih =>
    rw [List.foldl_cons, ih _ (fun hc => h (List.mem_cons_of_mem _ hc))]
    cases c with
    | name => rfl
    | funding_total => exact absurd (List.mem_cons_self _ _) h
    | last_funding_round => rfl
    | investors => rfl
    | founder => rfl

theorem foldl_applyCol_funding_of_mem (row : ERow) (cols : List ECol) (s : Merged)
    (h : ECol.funding_total ∈ cols) :
    (cols.foldl (applyCol row) s).funding_total = row.funding_total := by
  induction cols generalizing s with
  | nil => cases h
  | cons c cs ih =>
    rw [List.foldl_cons]
    by_cases hcs : ECol.funding_total ∈ cs
    · exact ih _ hcs
    · have hc : c = ECol.funding_total := by
        rcases List.mem_cons.mp h with h' | h'
        · exact h'.symm
        · exact absurd h' hcs
      subst hc
      rw [foldl_applyCol_funding_of_not_mem row cs _ hcs]
      rfl

theorem enrichStep_of_no_match (cols : List ECol) (df : List Merged) (row : ERow)
    (h : ∀ s ∈ df, pyLower s.name ≠ pyLower row.name) :
    enrichStep cols df row = df := by
  rw [enrichStep, if_neg]
  intro hany
  obtain ⟨s, hs, he⟩ := List.any_eq_true.mp hany
  exact h s hs (by simpa using he)

/-- Claim C6.  Manual enrichment semantics: a matching enrichment row
overwrites the enrichment columns present on every matching record
(`funding_total` on the merged table — enrichment always wins over the
prior value), records whose name does not match come through unchanged,
and an enrichment row matching no record leaves the table exactly as the
remaining rows produce it (no insert-on-miss). -/
theorem manual_enrichment_overwrite (df : List Merged) (cols : List ECol) (r : ERow)
    (rest : List ERow) (hc : ECol.funding_total ∈ cols) :
    (∀ s ∈ apply_manual_enrichment df cols [r],
      pyLower s.name = pyLower r.name → s.funding_total = r.funding_total)
    ∧ (∀ s ∈ apply_manual_enrichment df cols [r],
      pyLower s.name ≠ pyLower r.name → s ∈ df)
    ∧ ((∀ s ∈ df, pyLower s.name ≠ pyLower r.name) →
      apply_manual_enrichment df cols (r :: rest)
        = apply_manual_enrichment df cols rest) := by
  have happ : apply_manual_enrichment df cols [r] = enrichStep cols df r := rfl
  refine ⟨?_, ?_, ?_⟩
  · intro s hs hname
    rw [happ, enrichStep] at hs
    by_cases hany : df.any (fun t => pyLower t.name = pyLower r.name) = true
    · rw [if_pos hany] at hs
      obtain ⟨t, ht, rfl⟩ := List.mem_map.mp hs
      by_cases hm : pyLower t.name = pyLower r.name
      · rw [if_pos hm]
        exact foldl_applyCol_funding_of_mem r cols t hc
      · rw [if_neg hm] at hname
        exact absurd hname hm
    · rw [if_neg hany] at hs
      have hnone : ∀ t ∈ df, ¬ pyLower t.name = pyLower r.name := by
        intro t ht
        have := List.any_eq_false.mp (Bool.eq_false_iff.mpr hany) t ht
        simpa using this
      exact absurd hname (hnone s hs)
  · intro s hs hname
    rw [happ, enrichStep] at hs
    by_cases hany : df.any (fun t => pyLower t.name = pyLower r.name) = true
    · rw [if_pos hany] at hs
      obtain ⟨t, ht, rfl⟩ := List.mem_map.mp hs
      by_cases hm : pyLower t.name = pyLower r.name
      · rw [if_pos hm, foldl_applyCol_name] at hname
        exact absurd hm hname
      · rw [if_neg hm]
        exact ht
    · rw [if_neg hany] at hs
      exact hs
  · intro hnone
    have hstep : enrichStep cols df r = df := enrichStep_of_no_match cols df r hnone
    cases rest with
    | nil =>
      show List.foldl (enrichStep cols) df [r] = df
      simpa using hstep
    | cons r2 rs =>
      show List.foldl (enrichStep cols) df (r :: r2 :: rs)
        = List.foldl (enrichStep cols) df (r2 :: rs)
      rw [List.foldl_cons, hstep]

/-- A merged record for the enrichment witness, with no funding yet. -/
def mAcme : Merged :=
  { name := "Acme", description := "d", source := "GitHub", github_url := "",
    website := "", github_stars := 1, github_forks := 0, star_velocity := 0,
    momentum_score := 1, language := "", topics := "", founded_year := none,
    funding_total := 0, location := "", ph_upvotes := none, ph_comments := none,
    launch_date := none, combined_momentum := 1 }

/-- An enrichment row for `ACME` carrying five million of funding. -/
def eAcme : ERow :=
  { name := "ACME", funding_total := 5000000, last_funding_round := "Series A",
    investors := "Acme Ventures", founder := "A. Founder" }

/-- Witness for C6: the enrichment table has the `funding_total` column,
and the theorem applies to the one-record table. -/
theorem manual_enrichment_overwrite_witness :
    ECol.funding_total ∈ [ECol.funding_total]
    ∧ ((∀ s ∈ apply_manual_enrichment [mAcme] [ECol.funding_total] [eAcme],
        pyLower s.name = pyLower eAcme.name → s.funding_total = eAcme.funding_total)
      ∧ (∀ s ∈ apply_manual_enrichment [mAcme] [ECol.funding_total] [eAcme],
        pyLower s.name ≠ pyLower eAcme.name → s ∈ [mAcme])
      ∧ ((∀ s ∈ [mAcme], pyLower s.name ≠ pyLower eAcme.name) →
        apply_manual_enrichment [mAcme] [ECol.funding_total] (eAcme :: [])
          = apply_manual_enrichment [mAcme] [ECol.funding_total] [])) :=
  ⟨List.mem_singleton_self _,
    manual_enrichment_overwrite [mAcme] [ECol.funding_total] eAcme []
      (List.mem_singleton_self _)⟩

theorem foldl_applyItem_getElem?_of_unmentioned (i : Nat) (cs : List CatItem)
    (acc : List CatRecord) (hno : ∀ it ∈ cs, it.id ≠ i) :
    (cs.foldl applyItem acc)[i]? = acc[i]? := by
  induction cs generalizing acc with
  | nil => rfl
  | cons it rest ih =>
    rw [List.foldl_cons, ih _ (fun x hx => hno x (List.mem_cons_of_mem _ hx))]
    rw [applyItem]
    by_cases h : it.id < acc.length
    · rw [dif_pos h]
      exact List.getElem?_set_ne (hno it (List.mem_cons_self _ _))
    · rw [dif_neg h]

theorem strFind_eq_none_of_not_mem (l : List Char) (c : Char) (h : c ∉ l) :
    strFind l c = none := by
  rw [strFind]
  suffices H : ∀ i, List.findIdx? (fun d => d = c) l i = none from H 0
  induction l with
  | nil => intro i; rfl
  | cons a t ih =>
    intro i
    rw [List.findIdx?_cons, if_neg (by
      simp only [decide_eq_true_eq]
      exact fun e => h (e ▸ List.mem_cons_self a t))]
    exact ih (fun hc => h (List.mem_cons_of_mem _ hc)) (i + 1)

/-- Claim C2 (amended).  Categorizer degraded defaults: a record whose
positional id is absent from the parsed response keeps its labels unset
— `category`, `subcategory` and `themes` stay `None` (pandas missing),
not `"Other"` / `""` — and a response text containing no array literal
whose full text also fails JSON parsing yields an empty label set, so
every record's labels stay `None` and the call returns normally.  (The
unamended claim, that such records end with `category = "Other"`, is
refuted by `categorizer_other_cex`: `"Other"` is only the fallback for
a response entry that exists but lacks the `category` key.) -/
theorem categorizer_degraded_defaults (df : List SRecord) (cats : List CatItem) (i : Nat)
    (rOut : CatRecord) (hno : ∀ it ∈ cats, it.id ≠ i)
    (hr : (joinCategories df cats)[i]? = some rOut) :
    rOut.category = none ∧ rOut.subcategory = none ∧ rOut.themes = none
    ∧ ∀ (loads : List Char → Option (List CatItem)) (resp : List Char),
        lbrack ∉ resp → loads resp = none →
        parse_categorization_response loads resp = [] := by
  have hjoin : (joinCategories df cats)[i]? = (initLabels df)[i]? := by
    rw [joinCategories]
    exact foldl_applyItem_getElem?_of_unmentioned i cats _ hno
  rw [hjoin, initLabels, List.getElem?_map] at hr
  have hfields : rOut.category = none ∧ rOut.subcategory = none ∧ rOut.themes = none := by
    cases hdf : df[i]? with
    | none =>
      rw [hdf] at hr
      cases hr
    | some s =>
      rw [hdf] at hr
      have hr2 := Option.some.inj hr
      rw [← hr2]
      exact ⟨rfl, rfl, rfl⟩
  refine ⟨hfields.1, hfields.2.1, hfields.2.2, ?_⟩
  intro loads resp hnb hld
  simp only [parse_categorization_response, strFind_eq_none_of_not_mem resp lbrack hnb, hld]
  simp

/-- Input record of the categorizer witnesses. -/
def sAcme : SRecord := { name := "Acme", description := "an assistant" }

/-- The freshly initialized labeled form of `sAcme`: labels unset. -/
def rInit : CatRecord :=
  { name := "Acme", description := "an assistant", category := none,
    subcategory := none, themes := none }

/-- A `json.loads` stand-in that fails on every input
(`JSONDecodeError` on any text). -/
def loadsNone : List Char → Option (List CatItem) := fun _ => none

/-- Witness for C2: the empty parsed response mentions no id, so record
0 keeps unset labels. -/
theorem categorizer_degraded_defaults_witness :
    (∀ it ∈ ([] : List CatItem), it.id ≠ 0)
    ∧ (joinCategories [sAcme] [])[0]? = some rInit
    ∧ (rInit.category = none ∧ rInit.subcategory = none ∧ rInit.themes = none
      ∧ ∀ (loads : List Char → Option (List CatItem)) (resp : List Char),
          lbrack ∉ resp → loads resp = none →
          parse_categorization_response loads resp = []) :=
  ⟨fun it h => absurd h (List.not_mem_nil it), rfl,
    categorizer_degraded_defaults [sAcme] [] 0 rInit
      (fun it h => absurd h (List.not_mem_nil it)) rfl⟩

/-- Counterexample for C2 as stated: on a response with no array literal
that fails JSON parsing, the unmatched record's `category` is `None`,
not `"Other"`. -/
theorem categorizer_other_cex :
    (categorize_startups loadsNone "no array literal in this response".data [sAcme]).map
      (fun cr => cr.category) = [none]
    ∧ (none : Option String) ≠ some "Other" := by
  exact ⟨rfl, by decide⟩

/-- Claim C10.  Categorization does not mutate its input: in the
heap-passing embedding of pandas reference semantics, every write of
`categorize_startups` lands on the fresh slot allocated by
`startups_df.copy()`, so the caller's table is unchanged and the
returned table is a different slot. -/
theorem categorize_preserves_caller_table (loads : List Char → Option (List CatItem))
    (resp : List Char) (heap : List (List CatRecord)) (src : Nat)
    (h : src < heap.length) :
    ((categorize_startups_heap loads resp heap src).1)[src]? = heap[src]?
    ∧ (categorize_startups_heap loads resp heap src).2 ≠ src := by
  simp only [categorize_startups_heap]
  exact ⟨by rw [List.getElem?_set_ne (ne_of_gt h), List.getElem?_append_left h],
    ne_of_gt h⟩

/-- Witness for C10 at a one-table heap. -/
theorem categorize_preserves_caller_table_witness :
    0 < ([[rInit]] : List (List CatRecord)).length
    ∧ (((categorize_startups_heap loadsNone [] [[rInit]] 0).1)[0]? = [[rInit]][0]?
      ∧ (categorize_startups_heap loadsNone [] [[rInit]] 0).2 ≠ 0) :=
  ⟨by decide, categorize_preserves_caller_table loadsNone [] [[rInit]] 0 (by decide)⟩
